import Mathlib

/-!
Verification of the dependency-gathering and outdated-set resolution engine of
cargo-interactive-update against its specification.

The embedding follows `src/cargo.rs` (lock resolution, manifest extraction,
workspace tree, fetch orchestration), `src/api.rs` (crates.io task behaviour)
and `src/loading.rs` (progress counter).  The repository modules
`src/dependency.rs` and `src/args.rs` are not present in the source snapshot;
the record types and the ordering they provide (`DependencyKind`, `Dependency`
and their `Ord` instances) are modelled from the specification where needed and
marked as such.  External crates (`semver`, `toml_edit`, `cargo_lock`, the
network clients) are abstracted: version parsing, version-requirement matching
and the registry lookups are parameters of the model.
-/

namespace CargoInteractiveUpdate

/-- Modelled from the spec: `DependencyKind` lives in `src/dependency.rs`,
which is absent from the source snapshot.  The spec fixes the kind order as
Normal < Dev < Build < Workspace-level. -/
inductive DependencyKind where
  | Normal
  | Dev
  | Build
  | Workspace
deriving DecidableEq, Repr

/-- Numeric index realising the spec-modelled kind order
Normal < Dev < Build < Workspace. -/
def DependencyKind.idx : DependencyKind → Nat
  | .Normal => 0
  | .Dev => 1
  | .Build => 2
  | .Workspace => 3

/-- `CargoDependency` from `src/cargo.rs` (lines 9-16): one declaration
extracted from a manifest, with the lock-resolved version and source. -/
structure CargoDependency where
  name : String
  package : String
  version : String
  kind : DependencyKind
  source : Option String
deriving DecidableEq, Repr

/-- Modelled from the spec: the `Dependency` result record lives in the absent
`src/dependency.rs`; its fields are reconstructed from their uses in
`src/api.rs` and `src/info.rs` (name, current/latest version, kind,
workspace-member label).  Display-only fields (repository, description, dates)
are omitted as no claim mentions them. -/
structure Dependency where
  name : String
  current_version : String
  latest_version : String
  kind : DependencyKind
  workspace_member : Option String
deriving DecidableEq, Repr

/-- Modelled from the spec: the order used by the final `deps.sort()`
(`Ord` for `Dependency` in the absent `src/dependency.rs`): by (kind, name)
ascending, mirroring `impl Ord for CargoDependency` in `src/cargo.rs`
lines 18-28 (kind first, name as tie-break). -/
def depLE (a b : Dependency) : Prop :=
  a.kind.idx < b.kind.idx ∨ (a.kind.idx = b.kind.idx ∧ a.name ≤ b.name)

instance : DecidableRel depLE := fun a b => by
  unfold depLE; infer_instance

instance : IsTotal Dependency depLE := by
  constructor
  intro a b
  rcases Nat.lt_trichotomy a.kind.idx b.kind.idx with h | h | h
  · exact Or.inl (Or.inl h)
  · rcases le_total a.name b.name with hn | hn
    · exact Or.inl (Or.inr ⟨h, hn⟩)
    · exact Or.inr (Or.inr ⟨h.symm, hn⟩)
  · exact Or.inr (Or.inl h)

instance : IsTrans Dependency depLE := by
  constructor
  intro a b c hab hbc
  rcases hab with h1 | ⟨h1, hn1⟩
  · rcases hbc with h2 | ⟨h2, _⟩
    · exact Or.inl (h1.trans h2)
    · exact Or.inl (h2 ▸ h1)
  · rcases hbc with h2 | ⟨h2, hn2⟩
    · exact Or.inl (h1 ▸ h2)
    · exact Or.inr ⟨h1.trans h2, le_trans hn1 hn2⟩

/-- A package entry of the lock file (`cargo_lock::Package`): name, exact
version and optional source locator, all as strings.  The lock file invariant
used by the matching algorithm is that entries are sorted by name. -/
structure LockPkg where
  name : String
  version : String
  source : Option String
deriving DecidableEq, Repr

instance : Inhabited LockPkg := ⟨⟨"", "", none⟩⟩

/-- Entries of the lock file sorted by package name (the invariant
`find_matching_package` relies on). -/
def SortedByName (ps : List LockPkg) : Prop :=
  ps.Pairwise (fun a b => a.name ≤ b.name)

/-- Rust's `slice::binary_search_by_key(&package_name, |p| p.name.as_str())`
as used in `find_matching_package` (`src/cargo.rs` line 308): standard binary
search on `[left, right)`; `Less` (entry name before the key) moves `left`
past `mid`, `Greater` moves `right` to `mid`, equality returns the index.
`.error` carries the insertion point, as Rust's `Err` does. -/
def binSearch (ps : List LockPkg) (key : String) (left right : Nat) :
    Except Nat Nat :=
  if _h : left < right then
    let mid := left + (right - left) / 2
    let pname := (ps.getD mid default).name
    if pname < key then binSearch ps key (mid + 1) right
    else if key < pname then binSearch ps key left mid
    else .ok mid
  else .error left
termination_by right - left
decreasing_by
  · omega
  · omega

/-- The panic message of `find_matching_package` (`src/cargo.rs`
lines 311-316 and 346-349). -/
def noMatchMsg (pkgName : String) : String :=
  "unable to find matching crate " ++ pkgName ++ " in Cargo.lock"

/-- The part of `find_matching_package` (`src/cargo.rs` lines 318-349) that
runs after the binary search produced index `i`: return `packages[i]` if its
version satisfies the requirement, otherwise scan forward from `i + 1` while
the name still matches (`packages[i + 1..].iter().take_while(..).find(..)`),
then backward from `i - 1` (`packages[..i].iter().rev().take_while(..)
.find(..)`); if both scans fail, panic.  The version-requirement test
`req.matches` of the external semver crate is the parameter `matches`. -/
def findFromIndex (ps : List LockPkg) (i : Nat) (pkgName : String)
    (reqMatches : String → Bool) : Except String LockPkg :=
  let package := ps.getD i default
  if reqMatches package.version then .ok package
  else
    let fwd : Option LockPkg :=
      if i + 1 < ps.length then
        ((ps.drop (i + 1)).takeWhile (fun p => p.name == pkgName)).find?
          (fun p => reqMatches p.version)
      else none
    match fwd with
    | some p => .ok p
    | none =>
      let bwd : Option LockPkg :=
        if 0 < i then
          ((ps.take i).reverse.takeWhile (fun p => p.name == pkgName)).find?
            (fun p => reqMatches p.version)
        else none
      match bwd with
      | some p => .ok p
      | none => .error (noMatchMsg pkgName)

/-- `find_matching_package` from `src/cargo.rs` lines 300-350: binary-search
the name-sorted lock entries for `pkgName`; on failure panic
(`.error`), on success run the three-phase version check `findFromIndex`.
`ps` stands for `lockfile.packages`. -/
def find_matching_package (ps : List LockPkg) (pkgName : String)
    (reqMatches : String → Bool) : Except String LockPkg :=
  match binSearch ps pkgName 0 ps.length with
  | .error _ => .error (noMatchMsg pkgName)
  | .ok i => findFromIndex ps i pkgName reqMatches

deriving instance DecidableEq for Except

/-- A leaf value inside a manifest dependency table, as far as
`extract_dependencies_from_sections` inspects it: `as_str()` succeeds only on
the `.str` constructor; every other TOML value (booleans such as
`workspace = true`, numbers, nested tables, ...) is `.other`. -/
inductive TomlLeaf where
  | str (s : String)
  | other
deriving DecidableEq, Repr

/-- One entry value of a dependency section.  `toml_edit` distinguishes
`Item::Value(Value::String(..))`, `Item::Value(Value::InlineTable(..))` and
`Item::Table(..)`; the code at `src/cargo.rs` lines 263-277 treats the two
table shapes identically, so both are `.table`; every remaining shape falls
into the `_ => return None` arm, here `.other`. -/
inductive TomlDepValue where
  | str (versionReq : String)
  | table (entries : List (String × TomlLeaf))
  | other
deriving DecidableEq, Repr

/-- Key lookup in a (unique-keyed) TOML table, `t.get(key)`. -/
def lookupToml (entries : List (String × TomlLeaf)) (key : String) :
    Option TomlLeaf :=
  (entries.find? (fun e => e.1 == key)).map (fun e => e.2)

/-- `t.get(key)?.as_str()?`: the value under `key` when it is a string. -/
def lookupStr (entries : List (String × TomlLeaf)) (key : String) :
    Option String :=
  match lookupToml entries key with
  | some (.str s) => some s
  | _ => none

/-- The body of the `flat_map` closure of
`extract_dependencies_from_sections` (`src/cargo.rs` lines 262-296) for a
single `(name, package_data)` manifest entry.  `.ok none` is the closure
returning `None` (entry skipped); `.error` is a panic
(`expect("must be a valid version requirement")` or the panics of
`find_matching_package`).  `VersionReq::parse` of the external semver crate
is abstracted by `parseReq`, which returns the requirement as its
version-matching test. -/
def extractEntry (lock : List LockPkg)
    (parseReq : String → Option (String → Bool)) (kind : DependencyKind)
    (nm : String) (item : TomlDepValue) :
    Except String (Option CargoDependency) :=
  let cont : String → Option String → Except String (Option CargoDependency) :=
    fun versionReq package? =>
      match parseReq versionReq with
      | none => .error "must be a valid version requirement"
      | some reqMatches =>
        let package_name := package?.getD nm
        match find_matching_package lock package_name reqMatches with
        | .error e => .error e
        | .ok p => .ok (some ⟨nm, p.name, p.version, kind, p.source⟩)
  match item with
  | .str v => cont v none
  | .table t =>
    match lookupStr t "version" with
    | some v => cont v (lookupStr t "package")
    | none => .ok none
  | .other => .ok none

/-- The `flat_map` over all entries of a dependency section, in table order:
skipped entries (`.ok none`) contribute nothing, the first panic aborts. -/
def extractList (lock : List LockPkg)
    (parseReq : String → Option (String → Bool)) (kind : DependencyKind) :
    List (String × TomlDepValue) → Except String (List CargoDependency)
  | [] => .ok []
  | (nm, item) :: rest =>
    match extractEntry lock parseReq kind nm item with
    | .error e => .error e
    | .ok d? =>
      match extractList lock parseReq kind rest with
      | .error e => .error e
      | .ok ds => .ok (d?.elim ds (fun d => d :: ds))

/-- A dependency section as handed to `extract_dependencies_from_sections`:
either table-like (with its entries) or some other item shape
(`as_table_like()` fails). -/
inductive TomlSection where
  | table (entries : List (String × TomlDepValue))
  | notTable
deriving DecidableEq, Repr

/-- `extract_dependencies_from_sections` from `src/cargo.rs` lines 247-298:
a missing section or a non-table section yields no declarations; otherwise
every entry is extracted in order by the `flat_map` closure. -/
def extract_dependencies_from_sections (dependencies_section : Option TomlSection)
    (kind : DependencyKind) (lock : List LockPkg)
    (parseReq : String → Option (String → Bool)) :
    Except String (List CargoDependency) :=
  match dependencies_section with
  | none => .ok []
  | some .notTable => .ok []
  | some (.table entries) => extractList lock parseReq kind entries

/-- `CargoDependencies` from `src/cargo.rs` lines 36-42: a workspace node
with its package name, its own extracted declarations and its child nodes
keyed by member path.  The `HashMap` is modelled as an association list whose
order stands for the map's (arbitrary) iteration order; `cargo_toml` is
omitted, as no claim mentions the manifest documents carried along. -/
inductive CargoDependencies where
  | mk (package_name : Option String) (dependencies : List CargoDependency)
      (workspace_members : List (String × CargoDependencies))
deriving Repr

/-- `CargoDependencies::len` from `src/cargo.rs` lines 167-174: own
declaration count plus the fold of the children's `len` over the member map.
`lenChildren` is the `values().fold(0, |acc, deps| acc + deps.len())`. -/
def CargoDependencies.len : CargoDependencies → Nat
  | .mk _ deps members => deps.length + lenChildren members
where
  lenChildren : List (String × CargoDependencies) → Nat
    | [] => 0
    | (_, c) :: rest => lenChildren rest + CargoDependencies.len c

/-- All declarations of a workspace tree, node first, then the descendants
in member order.  Used to state what `CargoDependencies::len` counts. -/
def treeDecls : CargoDependencies → List CargoDependency
  | .mk _ deps members => deps ++ treeDeclsChildren members
where
  treeDeclsChildren : List (String × CargoDependencies) → List CargoDependency
    | [] => []
    | (_, c) :: rest => treeDecls c ++ treeDeclsChildren rest

/-- The source locator of the default registry
(`src/cargo.rs` line 90). -/
def cratesIoSource : String :=
  "registry+https://github.com/rust-lang/crates.io-index"

/-- The classification loop of `retrieve_outdated_dependencies`
(`src/cargo.rs` lines 84-97): declarations with the default-registry source
go to `crates_io_deps`, declarations with any other source to
`alt_registry_deps`, and declarations without a source are pushed nowhere. -/
def classifyDeps : List CargoDependency →
    List CargoDependency × List CargoDependency
  | [] => ([], [])
  | d :: rest =>
    let (cr, alt) := classifyDeps rest
    match d.source with
    | none => (cr, alt)
    | some s => if s = cratesIoSource then (d :: cr, alt) else (cr, d :: alt)

/-- The external collaborators of the fetch phase, abstracted over the
version type `V` of the semver crate:
`parseVersion` is `semver::Version::parse` (`None` = parse failure, a panic
at the use sites), `vlt` is the strict `<` on parsed versions,
`cratesIo` is the body of `crate::api::fetch_package_from_crates_io`
run in its thread (arguments: declaration, workspace member, workspace path;
outer `none` = the thread panics, which is also how `src/api.rs` surfaces a
lookup error, via `get_latest_version(&dep).unwrap()`), and
`altReg` is `crate::info::fetch_package_from_source` (outer `none` = panic,
`.error` = a `CargoResult` error value, `.ok` = the returned option). -/
structure Externals (V : Type) where
  parseVersion : String → Option V
  vlt : V → V → Bool
  cratesIo : CargoDependency → Option String → Option String →
    Option (Option Dependency)
  altReg : CargoDependency → Option String → Option String →
    Option (Except Unit (Option Dependency))

/-- How `src/cargo.rs` line 142 collects a crates.io thread:
`t.join().map(|e| e).ok().flatten()` — a panicked thread (`none`) is
discarded, otherwise the returned option is flattened. -/
def joinCratesIo (r : Option (Option Dependency)) : Option Dependency :=
  r.bind id

/-- How `src/cargo.rs` lines 143-145 collect an alternate-registry thread:
`t.join().map(|e| e.ok()).ok().flatten().flatten()` — a panicked thread and
an error result are both discarded. -/
def joinAlt (r : Option (Except Unit (Option Dependency))) :
    Option Dependency :=
  match r with
  | some (.ok d?) => d?
  | _ => none

/-- The `.filter(..)` of `src/cargo.rs` lines 146-153 applied to the
collected results, in order: parse the current and the latest version
(`expect` panics — `.error` — when parsing fails) and keep the item exactly
when current < latest. -/
def filterOutdated {V : Type} (parseVersion : String → Option V)
    (vlt : V → V → Bool) : List Dependency → Except String (List Dependency)
  | [] => .ok []
  | d :: rest =>
    match parseVersion d.current_version with
    | none => .error "Current version is not a valid semver"
    | some cv =>
      match parseVersion d.latest_version with
      | none => .error "Latest version is not a valid semver"
      | some lv =>
        match filterOutdated parseVersion vlt rest with
        | .error e => .error e
        | .ok tail => .ok (if vlt cv lv then d :: tail else tail)

mutual

/-- `CargoDependencies::retrieve_outdated_dependencies` from `src/cargo.rs`
lines 66-165, for one node: classify the declarations by source (dropping
source-less ones), run one task per routed declaration (each task body is
`let ret = fetch(..); loader.inc_loader(); ret`, so a panicking fetch skips
the increment — the `Nat` component counts the `inc_loader` calls), collect
the joined results (panics discarded), filter them by strict version
increase (parse failures panic the node, `.error`), run the children
(whose join is `unwrap`ped: a child error aborts, `.error`), append their
results and sort everything by the (kind, name) order.  `insertionSort` is a
stable sort, as Rust's `Vec::sort` is, so it computes the same list. -/
def retrieve_outdated_dependencies {V : Type} (ext : Externals V)
    (node : CargoDependencies) (workspace_path : Option String) :
    Except String (List Dependency × Nat) :=
  match node with
  | .mk package_name deps members =>
    let crDeps := (classifyDeps deps).1
    let altDeps := (classifyDeps deps).2
    let crRes := crDeps.map (fun d => ext.cratesIo d package_name workspace_path)
    let altRes := altDeps.map (fun d => ext.altReg d package_name workspace_path)
    let inc := crRes.countP (fun r => r.isSome)
      + altRes.countP (fun r => r.isSome)
    let collected := crRes.filterMap joinCratesIo ++ altRes.filterMap joinAlt
    match filterOutdated ext.parseVersion ext.vlt collected with
    | .error e => .error e
    | .ok own =>
      match retrieveChildren ext members with
      | .error e => .error e
      | .ok (childDeps, childInc) =>
        .ok (List.insertionSort depLE (own ++ childDeps), inc + childInc)

/-- The workspace-member loop of `src/cargo.rs` lines 99-106 and its join at
lines 156-160: each child runs `retrieve_outdated_dependencies` with its map
key as workspace path; `h.join().unwrap()` propagates a child failure. -/
def retrieveChildren {V : Type} (ext : Externals V) :
    List (String × CargoDependencies) → Except String (List Dependency × Nat)
  | [] => .ok ([], 0)
  | (member, child) :: rest =>
    match retrieve_outdated_dependencies ext child (some member) with
    | .error e => .error e
    | .ok (d1, i1) =>
      match retrieveChildren ext rest with
      | .error e => .error e
      | .ok (d2, i2) => .ok (d1 ++ d2, i1 + i2)

end

/-! ## Lemmas about the lock resolver -/

/-- An element whose predecessors (itself included) all satisfy `p` is kept
by `takeWhile p`. -/
theorem getElem_mem_takeWhile {α : Type} (p : α → Bool) :
    ∀ (l : List α) (m : Nat) (hm : m < l.length),
      (∀ k (hk : k < l.length), k ≤ m → p l[k] = true) →
      l[m] ∈ l.takeWhile p
  | a :: t, 0, _, h => by
    have pa : p a = true := h 0 (by simp) (Nat.le_refl 0)
    simp [List.takeWhile_cons, pa]
  | a :: t, m + 1, hm, h => by
    have pa : p a = true := h 0 (by simp) (Nat.zero_le _)
    have tm : m < t.length := by simpa using hm
    have ih := getElem_mem_takeWhile p t m tm
      (fun k hk hkm => h (k + 1) (by simpa using hk) (Nat.succ_le_succ hkm))
    simp only [List.takeWhile_cons, pa, if_pos]
    exact List.mem_cons_of_mem _ (by simpa using ih)

/-- When the binary search answers `.ok i`, the index is in bounds and the
entry there has exactly the searched name. -/
theorem binSearch_ok (ps : List LockPkg) (key : String) (left right i : Nat)
    (hr : right ≤ ps.length) (h : binSearch ps key left right = .ok i) :
    i < ps.length ∧ (ps.getD i default).name = key := by
  rw [binSearch] at h
  split at h
  · rename_i hlr
    dsimp only at h
    split at h
    · exact binSearch_ok ps key _ right i hr h
    · split at h
      · exact binSearch_ok ps key left _ i
          (Nat.le_trans (by omega) hr) h
      · rename_i hlt hgt
        cases h
        refine ⟨by omega, le_antisymm (not_lt.mp hgt) (not_lt.mp hlt)⟩
  · cases h
termination_by right - left

/-- In a name-sorted lock file, every entry between two same-named entries
carries that name as well. -/
theorem name_between (ps : List LockPkg) (hs : SortedByName ps)
    (key : String) (i k j : Nat) (hik : i ≤ k) (hkj : k ≤ j)
    (hi : i < ps.length) (hk : k < ps.length) (hj : j < ps.length)
    (hni : ps[i].name = key) (hnj : ps[j].name = key) :
    ps[k].name = key := by
  have hpw := (List.pairwise_iff_getElem).mp hs
  rcases Nat.eq_or_lt_of_le hik with rfl | hik'
  · exact hni
  · rcases Nat.eq_or_lt_of_le hkj with rfl | hkj'
    · exact hnj
    · have h1 : ps[i].name ≤ ps[k].name := hpw i k hi hk hik'
      have h2 : ps[k].name ≤ ps[j].name := hpw k j hk hj hkj'
      rw [hni] at h1
      rw [hnj] at h2
      exact le_antisymm h2 h1

/-- Whatever one of the two neighbour scans returns carries the searched
name and satisfies the requirement. -/
theorem scan_result_props {l : List LockPkg} {p : LockPkg} {key : String}
    {reqMatches : String → Bool}
    (h : (l.takeWhile (fun q => q.name == key)).find?
      (fun q => reqMatches q.version) = some p) :
    p.name = key ∧ reqMatches p.version = true := by
  have h2 := List.find?_some h
  have h3 := List.mem_takeWhile_imp (List.mem_of_find?_eq_some h)
  exact ⟨by simpa using h3, h2⟩

/-- If a same-named satisfying entry sits strictly after the landing index,
the forward scan succeeds. -/
theorem fwd_scan_isSome (ps : List LockPkg) (key : String)
    (reqMatches : String → Bool) (hs : SortedByName ps)
    (i j : Nat) (hi : i < ps.length) (hj : j < ps.length) (hij : i < j)
    (hni : ps[i].name = key) (hnj : ps[j].name = key)
    (hmj : reqMatches ps[j].version = true) :
    (((ps.drop (i + 1)).takeWhile (fun q => q.name == key)).find?
      (fun q => reqMatches q.version)).isSome := by
  rw [List.find?_isSome]
  have hlen : (ps.drop (i + 1)).length = ps.length - (i + 1) :=
    List.length_drop _ _
  have hm : j - (i + 1) < (ps.drop (i + 1)).length := by omega
  have helem : (ps.drop (i + 1))[j - (i + 1)] = ps[j] := by
    rw [List.getElem_drop]
    congr 1
    omega
  have hmem : (ps.drop (i + 1))[j - (i + 1)] ∈
      (ps.drop (i + 1)).takeWhile (fun q => q.name == key) := by
    apply getElem_mem_takeWhile
    intro k hk hkm
    rw [List.getElem_drop]
    have hk' : i + 1 + k < ps.length := by omega
    have : ps[i + 1 + k].name = key :=
      name_between ps hs key i (i + 1 + k) j (by omega) (by omega)
        hi hk' hj hni hnj
    simpa using this
  rw [helem] at hmem
  exact ⟨ps[j], hmem, hmj⟩

/-- If a same-named satisfying entry sits strictly before the landing index,
the backward scan succeeds. -/
theorem bwd_scan_isSome (ps : List LockPkg) (key : String)
    (reqMatches : String → Bool) (hs : SortedByName ps)
    (i j : Nat) (hi : i < ps.length) (hj : j < ps.length) (hji : j < i)
    (hni : ps[i].name = key) (hnj : ps[j].name = key)
    (hmj : reqMatches ps[j].version = true) :
    (((ps.take i).reverse.takeWhile (fun q => q.name == key)).find?
      (fun q => reqMatches q.version)).isSome := by
  rw [List.find?_isSome]
  have htlen : (ps.take i).length = i := by
    rw [List.length_take]
    omega
  have hrlen : (ps.take i).reverse.length = i := by
    rw [List.length_reverse, htlen]
  have hm : i - 1 - j < (ps.take i).reverse.length := by omega
  have helem : (ps.take i).reverse[i - 1 - j] = ps[j] := by
    rw [List.getElem_reverse, List.getElem_take]
    congr 1
    omega
  have hmem : (ps.take i).reverse[i - 1 - j] ∈
      (ps.take i).reverse.takeWhile (fun q => q.name == key) := by
    apply getElem_mem_takeWhile
    intro k hk hkm
    rw [List.getElem_reverse, List.getElem_take]
    have hb1 : (ps.take i).length - 1 - k < ps.length := by omega
    have : ps[(ps.take i).length - 1 - k].name = key :=
      name_between ps hs key j ((ps.take i).length - 1 - k) i (by omega)
        (by omega) hj hb1 hi hnj hni
    simpa using this
  rw [helem] at hmem
  exact ⟨ps[j], hmem, hmj⟩

/-- Three-phase resolution succeeds from ANY landing index whose entry has
the searched name, provided the lock file is name-sorted and some same-named
entry satisfies the requirement. -/
theorem findFromIndex_pos (ps : List LockPkg) (key : String)
    (reqMatches : String → Bool) (hs : SortedByName ps)
    (i : Nat) (hi : i < ps.length) (hni : ps[i].name = key)
    (hex : ∃ p ∈ ps, p.name = key ∧ reqMatches p.version = true) :
    ∃ p, findFromIndex ps i key reqMatches = .ok p ∧
      p.name = key ∧ reqMatches p.version = true := by
  unfold findFromIndex
  rw [List.getD_eq_getElem _ _ hi]
  by_cases hmi : reqMatches ps[i].version = true
  · exact ⟨ps[i], by simp [hmi], hni, hmi⟩
  · simp only [hmi]
    obtain ⟨q, hqmem, hqname, hqmatch⟩ := hex
    obtain ⟨j, hj, rfl⟩ := List.mem_iff_getElem.mp hqmem
    have hji : j ≠ i := fun h => hmi (h ▸ hqmatch)
    have hbwd : j < i →
        ∃ p, (((ps.take i).reverse.takeWhile (fun q => q.name == key)).find?
          (fun q => reqMatches q.version)) = some p ∧
          p.name = key ∧ reqMatches p.version = true := by
      intro hlt
      obtain ⟨p, hp⟩ := Option.isSome_iff_exists.mp
        (bwd_scan_isSome ps key reqMatches hs i j hi hj hlt hni hqname hqmatch)
      exact ⟨p, hp, scan_result_props hp⟩
    cases hguard : decide (i + 1 < ps.length) with
    | false =>
      have hjli : j < i := by
        have := of_decide_eq_false hguard
        omega
      obtain ⟨p, hp, hp1, hp2⟩ := hbwd hjli
      have hipos : 0 < i := by omega
      simp only [of_decide_eq_false hguard, if_false, hipos, if_true, hp]
      exact ⟨p, by simp [show ¬ (i + 1 < ps.length) from of_decide_eq_false hguard, hipos, hp], hp1, hp2⟩
    | true =>
      have hguard' := of_decide_eq_true hguard
      simp only [hguard', if_true]
      cases hfwd : (((ps.drop (i + 1)).takeWhile (fun q => q.name == key)).find?
          (fun q => reqMatches q.version)) with
      | some p =>
        obtain ⟨hp1, hp2⟩ := scan_result_props hfwd
        exact ⟨p, by simp [hguard', hfwd], hp1, hp2⟩
      | none =>
        have hjlt : j < i := by
          rcases Nat.lt_trichotomy j i with h | h | h
          · exact h
          · exact absurd h hji
          · exfalso
            have := fwd_scan_isSome ps key reqMatches hs i j hi hj h hni
              hqname hqmatch
            rw [hfwd] at this
            simp at this
        obtain ⟨p, hp, hp1, hp2⟩ := hbwd hjlt
        have hipos : 0 < i := by omega
        exact ⟨p, by simp [hguard', hfwd, hipos, hp], hp1, hp2⟩

/-- Completeness of the embedded binary search: on a name-sorted list it
cannot miss a present name. -/
theorem binSearch_complete (ps : List LockPkg) (key : String)
    (hs : SortedByName ps) (left right j : Nat) (hr : right ≤ ps.length)
    (hjl : left ≤ j) (hjr : j < right) (hj : j < ps.length)
    (hnj : ps[j].name = key) :
    ∃ i, binSearch ps key left right = .ok i := by
  have hpw := (List.pairwise_iff_getElem).mp hs
  rw [binSearch]
  have hlr : left < right := by omega
  rw [dif_pos hlr]
  dsimp only
  have hmid : left + (right - left) / 2 < ps.length := by omega
  rw [List.getD_eq_getElem _ _ hmid]
  by_cases h1 : ps[left + (right - left) / 2].name < key
  · rw [if_pos h1]
    have hjm : left + (right - left) / 2 < j := by
      by_contra hc
      push_neg at hc
      rcases Nat.eq_or_lt_of_le hc with heq | hlt
      · subst heq
        rw [hnj] at h1
        exact absurd h1 (lt_irrefl key)
      · have := hpw j (left + (right - left) / 2) hj hmid hlt
        rw [hnj] at this
        exact absurd (lt_of_le_of_lt this h1) (lt_irrefl key)
    exact binSearch_complete ps key hs _ right j hr (by omega) hjr hj hnj
  · rw [if_neg h1]
    by_cases h2 : key < ps[left + (right - left) / 2].name
    · rw [if_pos h2]
      have hjm : j < left + (right - left) / 2 := by
        by_contra hc
        push_neg at hc
        rcases Nat.eq_or_lt_of_le hc with heq | hlt
        · subst heq
          rw [hnj] at h2
          exact absurd h2 (lt_irrefl key)
        · have := hpw (left + (right - left) / 2) j hmid hj hlt
          rw [hnj] at this
          exact absurd (lt_of_lt_of_le h2 this) (lt_irrefl key)
      exact binSearch_complete ps key hs left _ j (by omega) hjl hjm hj hnj
    · rw [if_neg h2]
      exact ⟨left + (right - left) / 2, rfl⟩
termination_by right - left

/-- When no entry of the lock file carries the searched name (under the
given requirement) the three-phase search of `findFromIndex` fails, for any
landing index whose entry has the searched name. -/
theorem findFromIndex_neg (ps : List LockPkg) (key : String)
    (reqMatches : String → Bool) (i : Nat) (hi : i < ps.length)
    (hni : ps[i].name = key)
    (hno : ∀ p ∈ ps, p.name = key → reqMatches p.version = false) :
    findFromIndex ps i key reqMatches = .error (noMatchMsg key) := by
  unfold findFromIndex
  rw [List.getD_eq_getElem _ _ hi]
  have hmi : reqMatches ps[i].version = false :=
    hno ps[i] (List.getElem_mem hi) hni
  have hfwd : (((ps.drop (i + 1)).takeWhile (fun q => q.name == key)).find?
      (fun q => reqMatches q.version)) = none := by
    rw [List.find?_eq_none]
    intro x hx
    have hname := List.mem_takeWhile_imp hx
    have hxin : x ∈ ps :=
      (List.drop_sublist (i + 1) ps).subset
        ((List.takeWhile_sublist _).subset hx)
    simp [hno x hxin (by simpa using hname)]
  have hbwd : (((ps.take i).reverse.takeWhile (fun q => q.name == key)).find?
      (fun q => reqMatches q.version)) = none := by
    rw [List.find?_eq_none]
    intro x hx
    have hname := List.mem_takeWhile_imp hx
    have hxin : x ∈ ps := by
      have := (List.takeWhile_sublist
        (fun q : LockPkg => q.name == key)).subset hx
      rw [List.mem_reverse] at this
      exact (List.take_sublist i ps).subset this
    simp [hno x hxin (by simpa using hname)]
  simp [hmi, hfwd, hbwd]

/-! ## Claim C1: lock resolution -/

/-- C1: for every name-sorted lock file and every declaration whose
resolution name and requirement are satisfied by at least one lock entry,
`find_matching_package` returns an entry with that name whose version
satisfies the requirement — and the three-phase scan `findFromIndex` does so
from EVERY landing index carrying the searched name, so the result does not
depend on which same-named entry the binary search lands on.  If the name is
absent, or no same-named entry satisfies the requirement, resolution panics
(`.error`) instead of skipping the declaration. -/
theorem c1_lock_resolution (ps : List LockPkg) (pkgName : String)
    (reqMatches : String → Bool) (hsort : SortedByName ps) :
    ((∃ p ∈ ps, p.name = pkgName ∧ reqMatches p.version = true) →
       (∀ i (hi : i < ps.length), ps[i].name = pkgName →
          ∃ p, findFromIndex ps i pkgName reqMatches = .ok p ∧
            p.name = pkgName ∧ reqMatches p.version = true)
       ∧ ∃ p, find_matching_package ps pkgName reqMatches = .ok p ∧
           p.name = pkgName ∧ reqMatches p.version = true)
    ∧ ((∀ p ∈ ps, p.name ≠ pkgName) →
        find_matching_package ps pkgName reqMatches =
          .error (noMatchMsg pkgName))
    ∧ ((∀ p ∈ ps, p.name = pkgName → reqMatches p.version = false) →
        find_matching_package ps pkgName reqMatches =
          .error (noMatchMsg pkgName)) := by
  refine ⟨fun hex => ⟨?_, ?_⟩, fun habs => ?_, fun hno => ?_⟩
  · intro i hi hni
    exact findFromIndex_pos ps pkgName reqMatches hsort i hi hni hex
  · obtain ⟨q, hqmem, hqname, hqmatch⟩ := hex
    obtain ⟨j, hj, rfl⟩ := List.mem_iff_getElem.mp hqmem
    obtain ⟨i, hok⟩ := binSearch_complete ps pkgName hsort 0 ps.length j
      (le_refl _) (Nat.zero_le _) hj hj hqname
    obtain ⟨hi, hgetD⟩ := binSearch_ok ps pkgName 0 ps.length i (le_refl _) hok
    rw [List.getD_eq_getElem _ _ hi] at hgetD
    unfold find_matching_package
    rw [hok]
    exact findFromIndex_pos ps pkgName reqMatches hsort i hi hgetD
      ⟨ps[j], hqmem, hqname, hqmatch⟩
  · unfold find_matching_package
    cases heq : binSearch ps pkgName 0 ps.length with
    | error k => rfl
    | ok i =>
      obtain ⟨hi, hgetD⟩ :=
        binSearch_ok ps pkgName 0 ps.length i (le_refl _) heq
      rw [List.getD_eq_getElem _ _ hi] at hgetD
      exact absurd hgetD (habs ps[i] (List.getElem_mem hi))
  · unfold find_matching_package
    cases heq : binSearch ps pkgName 0 ps.length with
    | error k => rfl
    | ok i =>
      obtain ⟨hi, hgetD⟩ :=
        binSearch_ok ps pkgName 0 ps.length i (le_refl _) heq
      rw [List.getD_eq_getElem _ _ hi] at hgetD
      exact findFromIndex_neg ps pkgName reqMatches i hi hgetD hno

/-- Scenario B lock file: `bar@1.9.0` and `bar@2.0.0`, name-sorted. -/
def lockB : List LockPkg :=
  [⟨"bar", "1.9.0", some cratesIoSource⟩,
   ⟨"bar", "2.0.0", some cratesIoSource⟩]

/-- Witness for C1 at Scenario B: the requirement `=2.0.0` (modelled as
matching exactly the string "2.0.0") resolves to the `bar@2.0.0` entry even
though `bar@1.9.0` is also present. -/
theorem c1_lock_resolution_witness :
    ∃ p, find_matching_package lockB "bar" (fun v => v == "2.0.0") = .ok p ∧
      p.name = "bar" ∧ (fun v : String => v == "2.0.0") p.version = true :=
  ((c1_lock_resolution lockB "bar" (fun v => v == "2.0.0")
    (by simp [SortedByName, lockB])).1 (by decide)).2

/-! ## Claim C8: total declared-dependency count -/

/-- The fold over the member map computes the sum of the children's `len`. -/
theorem lenChildren_eq_sum :
    (members : List (String × CargoDependencies)) →
      CargoDependencies.len.lenChildren members =
        (members.map (fun m => CargoDependencies.len m.2)).sum
  | [] => rfl
  | (m, c) :: rest => by
    rw [CargoDependencies.len.lenChildren, lenChildren_eq_sum rest]
    simp [Nat.add_comm]

mutual

/-- `CargoDependencies::len` counts exactly the declarations of the whole
workspace tree. -/
theorem len_eq_treeDecls_length :
    (node : CargoDependencies) →
      CargoDependencies.len node = (treeDecls node).length
  | .mk pn deps members => by
    rw [CargoDependencies.len, treeDecls, List.length_append,
      lenChildren_eq_treeDeclsChildren members]

/-- The member fold counts exactly the declarations of all child trees. -/
theorem lenChildren_eq_treeDeclsChildren :
    (members : List (String × CargoDependencies)) →
      CargoDependencies.len.lenChildren members =
        (treeDecls.treeDeclsChildren members).length
  | [] => rfl
  | (m, c) :: rest => by
    rw [CargoDependencies.len.lenChildren, treeDecls.treeDeclsChildren,
      List.length_append, len_eq_treeDecls_length c,
      lenChildren_eq_treeDeclsChildren rest]
    omega

end

/-- C8: for every workspace node, the total declared-dependency count
`CargoDependencies::len` equals the node's own declaration count plus the
sum of the totals of its child nodes — and consequently, recursively over
all descendants, it counts every declaration of the tree exactly once. -/
theorem c8_len_recursion :
    (∀ (pn : Option String) (deps : List CargoDependency)
       (members : List (String × CargoDependencies)),
       CargoDependencies.len (.mk pn deps members) =
         deps.length +
           (members.map (fun m => CargoDependencies.len m.2)).sum)
    ∧ ∀ node : CargoDependencies,
        CargoDependencies.len node = (treeDecls node).length := by
  constructor
  · intro pn deps members
    rw [CargoDependencies.len, lenChildren_eq_sum members]
  · exact len_eq_treeDecls_length

/-! ## Lemmas about manifest extraction -/

/-- Looking up one key is unaffected by deleting the bindings of a different
key. -/
theorem lookupToml_filter_ne (t : List (String × TomlLeaf)) (k0 key : String)
    (hne : key ≠ k0) :
    lookupToml (t.filter (fun e => e.1 != k0)) key = lookupToml t key := by
  unfold lookupToml
  congr 1
  induction t with
  | nil => rfl
  | cons e rest ih =>
    by_cases h : e.1 = k0
    · have hkey : (k0 == key) = false := by
        simp only [beq_eq_false_iff_ne, ne_eq]
        exact fun hk => hne hk.symm
      simp [List.filter_cons, h, List.find?_cons, hkey, ih]
    · simp only [List.filter_cons, bne_iff_ne, ne_eq, h, not_false_iff,
        if_true, List.find?_cons]
      cases hkey : (e.1 == key) with
      | true => rfl
      | false => exact ih

/-- String-value lookup is likewise unaffected. -/
theorem lookupStr_filter_ne (t : List (String × TomlLeaf)) (k0 key : String)
    (hne : key ≠ k0) :
    lookupStr (t.filter (fun e => e.1 != k0)) key = lookupStr t key := by
  unfold lookupStr
  rw [lookupToml_filter_ne t k0 key hne]

/-- `extractEntry` consults only the "version" and "package" keys of a table
entry: deleting the bindings of any other key leaves its result unchanged. -/
theorem extractEntry_ignores_other_keys (lock : List LockPkg)
    (parseReq : String → Option (String → Bool)) (kind : DependencyKind)
    (nm : String) (t : List (String × TomlLeaf)) (k0 : String)
    (hv : "version" ≠ k0) (hp : "package" ≠ k0) :
    extractEntry lock parseReq kind nm
        (.table (t.filter (fun e => e.1 != k0))) =
      extractEntry lock parseReq kind nm (.table t) := by
  simp only [extractEntry]
  rw [lookupStr_filter_ne t k0 "version" hv,
    lookupStr_filter_ne t k0 "package" hp]

/-- A table entry without a string "version" value is skipped by
`extractEntry` (the closure returns `None`), producing no declaration and no
panic. -/
theorem extractEntry_no_version (lock : List LockPkg)
    (parseReq : String → Option (String → Bool)) (kind : DependencyKind)
    (nm : String) (t : List (String × TomlLeaf))
    (h : lookupStr t "version" = none) :
    extractEntry lock parseReq kind nm (.table t) = .ok none := by
  simp only [extractEntry]
  rw [h]

/-! ## Claim C3: path-keyed manifest entries -/

/-- C3 (amended): the source snapshot has no path-dependency handling at
all.  `extractEntry` never consults a "path" key (deleting all "path"
bindings of a table entry leaves the result unchanged), and an entry without
a string "version" value — in particular a pure `{ path = ".." }` entry —
produces no declaration whatsoever: nothing is read from the target path's
manifest.  Entries carrying both "path" and "version" go through the lock
file like any other declaration. -/
theorem c3_path_never_consulted (lock : List LockPkg)
    (parseReq : String → Option (String → Bool)) (kind : DependencyKind)
    (nm : String) (t : List (String × TomlLeaf)) :
    (lookupStr t "version" = none →
       extractEntry lock parseReq kind nm (.table t) = .ok none)
    ∧ extractEntry lock parseReq kind nm
          (.table (t.filter (fun e => e.1 != "path"))) =
        extractEntry lock parseReq kind nm (.table t) :=
  ⟨extractEntry_no_version lock parseReq kind nm t,
   extractEntry_ignores_other_keys lock parseReq kind nm t "path"
     (by decide) (by decide)⟩

/-- Witness for C3 (amended) at `foo = { path = "deps/foo" }`: the entry is
skipped outright. -/
theorem c3_path_never_consulted_witness :
    extractEntry [] (fun _ => none) .Normal "foo"
        (.table [("path", .str "deps/foo")]) = .ok none :=
  (c3_path_never_consulted [] (fun _ => none) .Normal "foo"
    [("path", .str "deps/foo")]).1 (by decide)

/-- Lock file for the C3 counterexample: `foo@1.0.0` from crates.io. -/
def lockC3 : List LockPkg := [⟨"foo", "1.0.0", some cratesIoSource⟩]

/-- Requirement parser for the C3 counterexample: the requirement "1.0" is
satisfied exactly by the version "1.0.0". -/
def parseReqC3 : String → Option (String → Bool) :=
  fun s => if s == "1.0" then some (fun v => v == "1.0.0") else none

/-- The declaration the C3 counterexample produces. -/
def depC3 : CargoDependency :=
  ⟨"foo", "foo", "1.0.0", .Normal, some cratesIoSource⟩

/-- Counterexample to C3 as stated: for the manifest entry
`foo = { path = "deps/foo", version = "1.0" }` the code does NOT resolve the
version from the target path's manifest and it DOES send the declaration to
a registry lookup task: the declaration's version comes from the lock file
(`1.0.0`) and `classifyDeps` routes it into the crates.io task list. -/
theorem c3_counterexample :
    extract_dependencies_from_sections
        (some (.table [("foo",
          .table [("path", .str "deps/foo"), ("version", .str "1.0")])]))
        .Normal lockC3 parseReqC3 = .ok [depC3]
    ∧ classifyDeps [depC3] = ([depC3], []) := by
  constructor
  · simp [extract_dependencies_from_sections, extractList, extractEntry,
      lookupStr, lookupToml, parseReqC3, lockC3, find_matching_package,
      binSearch, findFromIndex, depC3]
  · simp [classifyDeps, depC3]

/-! ## Claim C4: workspace-inherited manifest entries -/

/-- C4 (amended): a table entry is dropped iff it lacks a string "version"
value; the "workspace" key itself is never consulted (deleting all
"workspace" bindings leaves `extractEntry` unchanged).  A bare
`baz = { workspace = true }` entry therefore produces no declaration, but
only because it carries no version, not because of the workspace flag. -/
theorem c4_workspace_never_consulted (lock : List LockPkg)
    (parseReq : String → Option (String → Bool)) (kind : DependencyKind)
    (nm : String) (t : List (String × TomlLeaf)) :
    (lookupStr t "version" = none →
       extractEntry lock parseReq kind nm (.table t) = .ok none)
    ∧ extractEntry lock parseReq kind nm
          (.table (t.filter (fun e => e.1 != "workspace"))) =
        extractEntry lock parseReq kind nm (.table t) :=
  ⟨extractEntry_no_version lock parseReq kind nm t,
   extractEntry_ignores_other_keys lock parseReq kind nm t "workspace"
     (by decide) (by decide)⟩

/-- Witness for C4 (amended) at Scenario D, `baz = { workspace = true }`
(the boolean leaf is a non-string value): the entry is dropped. -/
theorem c4_workspace_never_consulted_witness :
    extractEntry [] (fun _ => none) .Normal "baz"
        (.table [("workspace", .other)]) = .ok none :=
  (c4_workspace_never_consulted [] (fun _ => none) .Normal "baz"
    [("workspace", .other)]).1 (by decide)

/-- Lock file for the C4 counterexample: `baz@1.0.0` from crates.io. -/
def lockC4 : List LockPkg := [⟨"baz", "1.0.0", some cratesIoSource⟩]

/-- Requirement parser for the C4 counterexample. -/
def parseReqC4 : String → Option (String → Bool) :=
  fun s => if s == "1.0.0" then some (fun v => v == "1.0.0") else none

/-- Counterexample to C4 as stated: the manifest entry
`baz = { workspace = true, version = "1.0.0" }` carries `workspace = true`
(the `.other` leaf models the boolean) yet it is NOT dropped from the
declaration set — the code never reads the "workspace" key and produces a
declaration from the "version" key. -/
theorem c4_counterexample :
    extract_dependencies_from_sections
        (some (.table [("baz",
          .table [("workspace", .other), ("version", .str "1.0.0")])]))
        .Normal lockC4 parseReqC4 =
      .ok [⟨"baz", "baz", "1.0.0", .Normal, some cratesIoSource⟩] := by
  simp [extract_dependencies_from_sections, extractList, extractEntry,
    lookupStr, lookupToml, parseReqC4, lockC4, find_matching_package,
    binSearch, findFromIndex]

/-! ## Claim C5: missing version and malformed shapes -/

/-- C5 (amended): a table entry missing its "version" key (or whose version
value is not a string) is skipped exactly like a malformed entry shape, not
fatal; what is fatal in `extractEntry` is an unparsable version-requirement
string (the `expect` panic), for bare-string entries shown here. -/
theorem c5_missing_version_skipped (lock : List LockPkg)
    (parseReq : String → Option (String → Bool)) (kind : DependencyKind)
    (nm : String) :
    (∀ t, lookupStr t "version" = none →
       extractEntry lock parseReq kind nm (.table t) = .ok none)
    ∧ extractEntry lock parseReq kind nm .other = .ok none
    ∧ ∀ v, parseReq v = none →
        extractEntry lock parseReq kind nm (.str v) =
          .error "must be a valid version requirement" := by
  refine ⟨fun t ht => extractEntry_no_version lock parseReq kind nm t ht,
    rfl, fun v hv => ?_⟩
  simp only [extractEntry]
  rw [hv]

/-- Witness for C5 (amended): a version-less table entry is skipped while an
invalid requirement string panics. -/
theorem c5_missing_version_skipped_witness :
    extractEntry [] (fun _ => none) .Normal "x"
        (.table [("package", .str "y")]) = .ok none
    ∧ extractEntry [] (fun _ => none) .Normal "x" (.str "bogus") =
        .error "must be a valid version requirement" :=
  ⟨(c5_missing_version_skipped [] (fun _ => none) .Normal "x").1
     [("package", .str "y")] (by decide),
   (c5_missing_version_skipped [] (fun _ => none) .Normal "x").2.2
     "bogus" rfl⟩

/-- Counterexample to C5 as stated: a non-workspace-inherited table entry
with no "version" key (`x = { package = "y" }`) does NOT abort the run —
the whole section extraction succeeds, silently skipping the entry. -/
theorem c5_counterexample :
    extract_dependencies_from_sections
        (some (.table [("x", .table [("package", .str "y")])]))
        .Normal [] (fun _ => none) = .ok [] := by
  simp [extract_dependencies_from_sections, extractList, extractEntry,
    lookupStr, lookupToml]

/-! ## Lemmas about the fetch phase -/

/-- Every item the outdated filter keeps has both versions parsed and the
current one strictly below the latest. -/
theorem filterOutdated_mem {V : Type} (parseVersion : String → Option V)
    (vlt : V → V → Bool) :
    ∀ (l out : List Dependency),
      filterOutdated parseVersion vlt l = .ok out →
      ∀ d ∈ out, ∃ cv lv, parseVersion d.current_version = some cv ∧
        parseVersion d.latest_version = some lv ∧ vlt cv lv = true
  | [], out, h, d, hd => by
    rw [filterOutdated] at h
    cases h
    cases hd
  | e :: rest, out, h, d, hd => by
    rw [filterOutdated] at h
    split at h
    · cases h
    · rename_i cv hcv
      split at h
      · cases h
      · rename_i lv hlv
        split at h
        · cases h
        · rename_i tail htail
          cases h
          by_cases hvlt : vlt cv lv = true
          · rw [if_pos hvlt] at hd
            rcases List.mem_cons.mp hd with rfl | hdtail
            · exact ⟨cv, lv, hcv, hlv, hvlt⟩
            · exact filterOutdated_mem parseVersion vlt rest tail htail
                d hdtail
          · rw [if_neg hvlt] at hd
            exact filterOutdated_mem parseVersion vlt rest tail htail d hd

/-- If any collected item has an unparsable current or latest version, the
outdated filter panics. -/
theorem filterOutdated_aborts {V : Type} (parseVersion : String → Option V)
    (vlt : V → V → Bool) :
    ∀ (l : List Dependency),
      (∃ d ∈ l, parseVersion d.current_version = none ∨
        parseVersion d.latest_version = none) →
      ∃ e, filterOutdated parseVersion vlt l = .error e
  | [], h => absurd h (by simp)
  | e :: rest, h => by
    rw [filterOutdated]
    cases hcv : parseVersion e.current_version with
    | none => exact ⟨_, rfl⟩
    | some cv =>
      cases hlv : parseVersion e.latest_version with
      | none => exact ⟨_, rfl⟩
      | some lv =>
        have hrest : ∃ d ∈ rest, parseVersion d.current_version = none ∨
            parseVersion d.latest_version = none := by
          obtain ⟨d, hdmem, hbad⟩ := h
          rcases List.mem_cons.mp hdmem with rfl | hdrest
          · rcases hbad with hb | hb
            · rw [hcv] at hb
              cases hb
            · rw [hlv] at hb
              cases hb
          · exact ⟨d, hdrest, hbad⟩
        obtain ⟨e2, he2⟩ := filterOutdated_aborts parseVersion vlt rest hrest
        rw [he2]
        exact ⟨e2, rfl⟩

mutual

/-- Every item of a successful fetch-phase result satisfies the
strict-version-increase filter invariant. -/
theorem retrieve_mem_props {V : Type} (ext : Externals V) :
    (node : CargoDependencies) → ∀ (p : Option String) res n,
      retrieve_outdated_dependencies ext node p = .ok (res, n) →
      ∀ d ∈ res, ∃ cv lv, ext.parseVersion d.current_version = some cv ∧
        ext.parseVersion d.latest_version = some lv ∧ ext.vlt cv lv = true
  | .mk pn deps members, p, res, n, h, d, hd => by
    rw [retrieve_outdated_dependencies] at h
    split at h
    · cases h
    · rename_i own hfilter
      split at h
      · cases h
      · rename_i childDeps childInc hchildren
        cases h
        rw [List.mem_insertionSort] at hd
        rcases List.mem_append.mp hd with hown | hchild
        · exact filterOutdated_mem ext.parseVersion ext.vlt _ own hfilter
            d hown
        · exact retrieveChildren_mem_props ext members childDeps childInc
            hchildren d hchild

/-- Child-collection version of `retrieve_mem_props`. -/
theorem retrieveChildren_mem_props {V : Type} (ext : Externals V) :
    (members : List (String × CargoDependencies)) → ∀ res n,
      retrieveChildren ext members = .ok (res, n) →
      ∀ d ∈ res, ∃ cv lv, ext.parseVersion d.current_version = some cv ∧
        ext.parseVersion d.latest_version = some lv ∧ ext.vlt cv lv = true
  | [], res, n, h, d, hd => by
    rw [retrieveChildren] at h
    cases h
    cases hd
  | (m, c) :: rest, res, n, h, d, hd => by
    rw [retrieveChildren] at h
    split at h
    · cases h
    · rename_i d1 i1 h1
      split at h
      · cases h
      · rename_i d2 i2 h2
        cases h
        rcases List.mem_append.mp hd with hl | hr
        · exact retrieve_mem_props ext c (some m) d1 i1 h1 d hl
        · exact retrieveChildren_mem_props ext rest d2 i2 h2 d hr

end

/-! ## Claim C6: strict version increase in the final result -/

/-- C6: every dependency of a successful fetch-phase result has both its
current and latest version strings parsed by the (abstracted) semver parser
with parse(current) < parse(latest) strictly — no item with
current >= latest survives the filter — and a collected item whose current
or latest version fails parsing panics the run (`.error`). -/
theorem c6_strict_version_filter :
    (∀ (V : Type) (ext : Externals V) (node : CargoDependencies)
       (p : Option String) (res : List Dependency) (n : Nat),
       retrieve_outdated_dependencies ext node p = .ok (res, n) →
       ∀ d ∈ res, ∃ cv lv, ext.parseVersion d.current_version = some cv ∧
         ext.parseVersion d.latest_version = some lv ∧ ext.vlt cv lv = true)
    ∧ ∀ (V : Type) (ext : Externals V) (l : List Dependency),
        (∃ d ∈ l, ext.parseVersion d.current_version = none ∨
          ext.parseVersion d.latest_version = none) →
        ∃ e, filterOutdated ext.parseVersion ext.vlt l = .error e :=
  ⟨fun _ ext node p res n h d hd => retrieve_mem_props ext node p res n h d hd,
   fun _ ext l h => filterOutdated_aborts ext.parseVersion ext.vlt l h⟩

/-- Toy version parser for the fetch-phase witnesses: "1" and "2" parse,
everything else fails. -/
def parseV6 : String → Option Nat :=
  fun s => if s == "1" then some 1 else if s == "2" then some 2 else none

/-- Concrete externals for the C6 witness: the crates.io lookup reports
latest version "2" and the alternate registry panics (unused). -/
def ext6 : Externals Nat :=
  ⟨parseV6, Nat.blt,
   fun d m _ => some (some ⟨d.name, d.version, "2", d.kind, m⟩),
   fun _ _ _ => none⟩

/-- One crates.io-sourced declaration at version "1". -/
def dep6 : CargoDependency := ⟨"foo", "foo", "1", .Normal, some cratesIoSource⟩

/-- A single-node workspace with the one declaration. -/
def node6 : CargoDependencies := .mk none [dep6] []

/-- The result item the C6 witness run produces. -/
def res6 : Dependency := ⟨"foo", "1", "2", .Normal, none⟩

/-- Witness for C6: on a concrete run the sole result item satisfies the
strict-increase invariant, and a result with an unparsable current version
makes the filter panic. -/
theorem c6_strict_version_filter_witness :
    (∃ cv lv, ext6.parseVersion res6.current_version = some cv ∧
      ext6.parseVersion res6.latest_version = some lv ∧
      ext6.vlt cv lv = true)
    ∧ ∃ e, filterOutdated ext6.parseVersion ext6.vlt
        [⟨"foo", "x", "2", .Normal, none⟩] = .error e :=
  ⟨c6_strict_version_filter.1 Nat ext6 node6 none [res6] 1
    (by simp [retrieve_outdated_dependencies, retrieveChildren, classifyDeps,
      cratesIoSource, joinCratesIo, joinAlt, filterOutdated, ext6, parseV6,
      dep6, node6, res6]) res6 (by simp),
   c6_strict_version_filter.2 Nat ext6 [⟨"foo", "x", "2", .Normal, none⟩]
    ⟨⟨"foo", "x", "2", .Normal, none⟩, by simp,
      Or.inl (by simp [ext6, parseV6])⟩⟩

/-! ## Claim C9: declarations without a source locator -/

/-- Classification ignores declarations without a source: dropping them
first changes nothing. -/
theorem classifyDeps_filter_sourced :
    ∀ deps : List CargoDependency,
      classifyDeps (deps.filter (fun d => d.source.isSome)) =
        classifyDeps deps
  | [] => rfl
  | d :: rest => by
    cases hsrc : d.source with
    | none =>
      rw [List.filter_cons]
      simp only [hsrc, Option.isSome_none, Bool.false_eq_true, if_false]
      rw [classifyDeps_filter_sourced rest, classifyDeps]
      rw [hsrc]
    | some s =>
      rw [List.filter_cons]
      simp only [hsrc, Option.isSome_some, if_true]
      rw [classifyDeps, classifyDeps_filter_sourced rest, classifyDeps]

/-- A declaration without a source is routed to neither task list. -/
theorem classifyDeps_sourceless_not_mem :
    ∀ (deps : List CargoDependency) (d : CargoDependency),
      d.source = none →
      d ∉ (classifyDeps deps).1 ∧ d ∉ (classifyDeps deps).2
  | [], d, _ => ⟨List.not_mem_nil d, List.not_mem_nil d⟩
  | e :: rest, d, hd => by
    have ih := classifyDeps_sourceless_not_mem rest d hd
    rw [classifyDeps]
    cases hsrc : e.source with
    | none => exact ih
    | some s =>
      by_cases hs : s = cratesIoSource
      · simp only [hs, if_true]
        refine ⟨fun hmem => ?_, ih.2⟩
        rcases List.mem_cons.mp hmem with rfl | hmem2
        · rw [hd] at hsrc
          cases hsrc
        · exact ih.1 hmem2
      · simp only [hs, if_false]
        refine ⟨ih.1, fun hmem => ?_⟩
        rcases List.mem_cons.mp hmem with rfl | hmem2
        · rw [hd] at hsrc
          cases hsrc
        · exact ih.2 hmem2

/-- C9: a declaration whose matched lock entry has no source locator is
silently excluded from the fetch phase — it reaches neither the crates.io
nor the alternate-registry task list, and removing all such declarations
changes neither the result nor the progress-increment count — while
`CargoDependencies::len` still counts it in the up-front total. -/
theorem c9_sourceless_counted_not_fetched (V : Type) (ext : Externals V)
    (p pn : Option String) (deps : List CargoDependency)
    (members : List (String × CargoDependencies)) :
    (∀ d ∈ deps, d.source = none →
       d ∉ (classifyDeps deps).1 ∧ d ∉ (classifyDeps deps).2)
    ∧ retrieve_outdated_dependencies ext (.mk pn deps members) p =
        retrieve_outdated_dependencies ext
          (.mk pn (deps.filter (fun d => d.source.isSome)) members) p
    ∧ CargoDependencies.len (.mk pn deps members) =
        deps.length + CargoDependencies.len.lenChildren members := by
  refine ⟨fun d _ hd => classifyDeps_sourceless_not_mem deps d hd, ?_, ?_⟩
  · simp only [retrieve_outdated_dependencies, classifyDeps_filter_sourced]
  · rw [CargoDependencies.len]

/-- A local declaration with no source locator. -/
def dep9 : CargoDependency := ⟨"loc", "loc", "1", .Normal, none⟩

/-- Witness for C9: the source-less declaration is routed nowhere, the run
behaves as if it were absent, and it still counts 1 toward the total. -/
theorem c9_sourceless_counted_not_fetched_witness :
    (dep9 ∉ (classifyDeps [dep9]).1 ∧ dep9 ∉ (classifyDeps [dep9]).2)
    ∧ retrieve_outdated_dependencies ext6 (.mk none [dep9] []) none =
        retrieve_outdated_dependencies ext6
          (.mk none ([dep9].filter (fun d => d.source.isSome)) []) none
    ∧ CargoDependencies.len (.mk none [dep9] []) = 1 :=
  ⟨(c9_sourceless_counted_not_fetched Nat ext6 none none [dep9] []).1
     dep9 (by simp) rfl,
   (c9_sourceless_counted_not_fetched Nat ext6 none none [dep9] []).2.1,
   (c9_sourceless_counted_not_fetched Nat ext6 none none [dep9] []).2.2⟩

/-! ## Claim C10: failure isolation asymmetry -/

/-- C10: a panic inside a per-declaration registry lookup task is swallowed
at join — even if EVERY lookup task panics, the node behaves exactly as if
it had no own declarations, and the run continues — whereas a failing
workspace-member child task (whose join result is unwrapped) aborts the
whole node. -/
theorem c10_failure_isolation (V : Type) (ext : Externals V)
    (p pn : Option String) (deps : List CargoDependency)
    (members : List (String × CargoDependencies)) :
    ((∀ d m q, ext.cratesIo d m q = none) →
     (∀ d m q, ext.altReg d m q = none) →
       retrieve_outdated_dependencies ext (.mk pn deps members) p =
         retrieve_outdated_dependencies ext (.mk pn [] members) p)
    ∧ ∀ e, retrieveChildren ext members = .error e →
        ∃ e2, retrieve_outdated_dependencies ext (.mk pn deps members) p =
          .error e2 := by
  constructor
  · intro hcr halt
    have h1 : (((classifyDeps deps).1).map
        (fun d => ext.cratesIo d pn p)).filterMap joinCratesIo = [] := by
      rw [List.filterMap_eq_nil_iff]
      intro r hr
      obtain ⟨a, _, rfl⟩ := List.mem_map.mp hr
      rw [hcr a pn p]
      rfl
    have h2 : (((classifyDeps deps).2).map
        (fun d => ext.altReg d pn p)).filterMap joinAlt = [] := by
      rw [List.filterMap_eq_nil_iff]
      intro r hr
      obtain ⟨a, _, rfl⟩ := List.mem_map.mp hr
      rw [halt a pn p]
      rfl
    have h3 : (((classifyDeps deps).1).map
        (fun d => ext.cratesIo d pn p)).countP (fun r => r.isSome) = 0 := by
      rw [List.countP_eq_zero]
      intro r hr
      obtain ⟨a, _, rfl⟩ := List.mem_map.mp hr
      rw [hcr a pn p]
      simp
    have h4 : (((classifyDeps deps).2).map
        (fun d => ext.altReg d pn p)).countP (fun r => r.isSome) = 0 := by
      rw [List.countP_eq_zero]
      intro r hr
      obtain ⟨a, _, rfl⟩ := List.mem_map.mp hr
      rw [halt a pn p]
      simp
    simp only [retrieve_outdated_dependencies, classifyDeps, h1, h2, h3, h4,
      List.map_nil, List.filterMap_nil, List.countP_nil, List.append_nil]
  · intro e hch
    cases hf : filterOutdated ext.parseVersion ext.vlt
        ((((classifyDeps deps).1).map
          (fun d => ext.cratesIo d pn p)).filterMap joinCratesIo ++
         (((classifyDeps deps).2).map
          (fun d => ext.altReg d pn p)).filterMap joinAlt) with
    | error e2 =>
      exact ⟨e2, by simp only [retrieve_outdated_dependencies]; rw [hf]⟩
    | ok own =>
      exact ⟨e, by simp only [retrieve_outdated_dependencies]; rw [hf, hch]⟩

/-- Lookup externals in which every registry task panics. -/
def extPanic : Externals Nat :=
  ⟨parseV6, Nat.blt, fun _ _ _ => none, fun _ _ _ => none⟩

/-- Externals whose crates.io lookup reports an unparsable latest version,
making the receiving node's filter panic. -/
def extBad : Externals Nat :=
  ⟨parseV6, Nat.blt,
   fun d m _ => some (some ⟨d.name, d.version, "x", d.kind, m⟩),
   fun _ _ _ => none⟩

/-- A member list whose single child node fails (its filter panics on the
unparsable latest version reported by `extBad`). -/
def members10 : List (String × CargoDependencies) :=
  [("m", .mk none [dep6] [])]

/-- Witness for C10: with every lookup panicking the node still completes,
behaving as if it had no own declarations; with a failing child the node
aborts. -/
theorem c10_failure_isolation_witness :
    (retrieve_outdated_dependencies extPanic (.mk none [dep6] []) none =
      retrieve_outdated_dependencies extPanic (.mk none [] []) none)
    ∧ ∃ e2, retrieve_outdated_dependencies extBad
        (.mk none [] members10) none = .error e2 :=
  ⟨(c10_failure_isolation Nat extPanic none none [dep6] []).1
     (fun _ _ _ => rfl) (fun _ _ _ => rfl),
   (c10_failure_isolation Nat extBad none none [] members10).2
     "Latest version is not a valid semver"
     (by simp [retrieveChildren, retrieve_outdated_dependencies,
       members10, dep6, extBad, classifyDeps, cratesIoSource, joinCratesIo,
       joinAlt, filterOutdated, parseV6])⟩

/-! ## Claim C2: progress-counter accounting -/

/-- Every declaration of the tree (and of every child tree) carries a
source locator. -/
def allSourced : CargoDependencies → Bool
  | .mk _ deps members =>
    deps.all (fun d => d.source.isSome) && allSourcedChildren members
where
  allSourcedChildren : List (String × CargoDependencies) → Bool
    | [] => true
    | (_, c) :: rest => allSourced c && allSourcedChildren rest

/-- With every declaration sourced, classification loses nothing: the two
task lists exhaust the declarations. -/
theorem classifyDeps_length_of_sourced :
    ∀ deps : List CargoDependency, (∀ d ∈ deps, d.source.isSome = true) →
      (classifyDeps deps).1.length + (classifyDeps deps).2.length =
        deps.length
  | [], _ => rfl
  | d :: rest, h => by
    have ih := classifyDeps_length_of_sourced rest
      (fun e he => h e (List.mem_cons_of_mem d he))
    have hd := h d (List.mem_cons_self d rest)
    rw [classifyDeps]
    cases hsrc : d.source with
    | none => rw [hsrc] at hd; cases hd
    | some s =>
      by_cases hs : s = cratesIoSource
      · simp only [hs, if_true, List.length_cons]
        omega
      · simp only [hs, if_false, List.length_cons]
        omega

/-- A lookup oracle that never panics makes every spawned task count. -/
theorem countP_isSome_map_eq_length {α β : Type}
    (l : List α) (f : α → Option β) (h : ∀ a ∈ l, (f a).isSome = true) :
    (l.map f).countP (fun r => r.isSome) = l.length := by
  rw [show l.length = (l.map f).length by rw [List.length_map]]
  rw [List.countP_eq_length]
  intro r hr
  obtain ⟨a, ha, rfl⟩ := List.mem_map.mp hr
  exact h a ha

mutual

/-- When no lookup panics and every declaration is sourced, a successful
run performs exactly `len node` counter increments. -/
theorem retrieve_inc_eq_len {V : Type} (ext : Externals V)
    (hcr : ∀ d m q, (ext.cratesIo d m q).isSome = true)
    (halt : ∀ d m q, (ext.altReg d m q).isSome = true) :
    (node : CargoDependencies) → ∀ (p : Option String) res n,
      allSourced node = true →
      retrieve_outdated_dependencies ext node p = .ok (res, n) →
      n = CargoDependencies.len node
  | .mk pn deps members, p, res, n, hsrc, h => by
    rw [allSourced, Bool.and_eq_true] at hsrc
    rw [retrieve_outdated_dependencies] at h
    split at h
    · cases h
    · rename_i own hfilter
      split at h
      · cases h
      · rename_i childDeps childInc hchildren
        cases h
        have hchild : childInc = CargoDependencies.len.lenChildren members :=
          retrieveChildren_inc_eq_len ext hcr halt members childDeps childInc
            hsrc.2 hchildren
        have hc1 : (((classifyDeps deps).1).map
            (fun d => ext.cratesIo d pn p)).countP (fun r => r.isSome) =
            (classifyDeps deps).1.length :=
          countP_isSome_map_eq_length _ _ (fun a _ => hcr a pn p)
        have hc2 : (((classifyDeps deps).2).map
            (fun d => ext.altReg d pn p)).countP (fun r => r.isSome) =
            (classifyDeps deps).2.length :=
          countP_isSome_map_eq_length _ _ (fun a _ => halt a pn p)
        have hlen : (classifyDeps deps).1.length +
            (classifyDeps deps).2.length = deps.length :=
          classifyDeps_length_of_sourced deps
            (fun d hd => by
              have := (List.all_eq_true.mp hsrc.1) d hd
              simpa using this)
        rw [CargoDependencies.len]
        omega

/-- Child-collection version of `retrieve_inc_eq_len`. -/
theorem retrieveChildren_inc_eq_len {V : Type} (ext : Externals V)
    (hcr : ∀ d m q, (ext.cratesIo d m q).isSome = true)
    (halt : ∀ d m q, (ext.altReg d m q).isSome = true) :
    (members : List (String × CargoDependencies)) → ∀ res n,
      allSourced.allSourcedChildren members = true →
      retrieveChildren ext members = .ok (res, n) →
      n = CargoDependencies.len.lenChildren members
  | [], res, n, _, h => by
    rw [retrieveChildren] at h
    cases h
    rfl
  | (m, c) :: rest, res, n, hsrc, h => by
    rw [allSourced.allSourcedChildren, Bool.and_eq_true] at hsrc
    rw [retrieveChildren] at h
    split at h
    · cases h
    · rename_i d1 i1 h1
      split at h
      · cases h
      · rename_i d2 i2 h2
        cases h
        have e1 : i1 = CargoDependencies.len c :=
          retrieve_inc_eq_len ext hcr halt c (some m) d1 i1 hsrc.1 h1
        have e2 : i2 = CargoDependencies.len.lenChildren rest :=
          retrieveChildren_inc_eq_len ext hcr halt rest d2 i2 hsrc.2 h2
        rw [CargoDependencies.len.lenChildren]
        omega

end

/-- C2 (amended): each spawned fetch task increments the shared counter
exactly once IF its lookup does not panic, so when no lookup panics and
every declaration carries a source locator, a successful run increments the
counter exactly `len` (the up-front total) times.  An alternate-registry
lookup error is an ordinary return value: its task still increments while
`joinAlt` discards the result.  But a crates.io lookup error panics its
task (`get_latest_version(&dep).unwrap()` in `src/api.rs`) before
`inc_loader`, and a source-less declaration is never spawned at all, so in
those cases the loaded count falls short of the total. -/
theorem c2_increment_accounting :
    (∀ (V : Type) (ext : Externals V) (node : CargoDependencies)
       (p : Option String) (res : List Dependency) (n : Nat),
       (∀ d m q, (ext.cratesIo d m q).isSome = true) →
       (∀ d m q, (ext.altReg d m q).isSome = true) →
       allSourced node = true →
       retrieve_outdated_dependencies ext node p = .ok (res, n) →
       n = CargoDependencies.len node)
    ∧ joinAlt (some (.error ())) = none :=
  ⟨fun _ ext node p res n hcr halt hs h =>
     retrieve_inc_eq_len ext hcr halt node p res n hs h,
   rfl⟩

/-- Externals for the C2 witness: lookups never panic; the unused alternate
registry always reports an error value. -/
def ext2 : Externals Nat :=
  ⟨parseV6, Nat.blt,
   fun d m _ => some (some ⟨d.name, d.version, "2", d.kind, m⟩),
   fun _ _ _ => some (.error ())⟩

/-- Witness for C2 (amended): a run over one sourced declaration with
non-panicking lookups increments the counter exactly `len = 1` times. -/
theorem c2_increment_accounting_witness :
    (1 : Nat) = CargoDependencies.len node6 :=
  c2_increment_accounting.1 Nat ext2 node6 none [res6] 1
    (fun _ _ _ => rfl) (fun _ _ _ => rfl) (by decide)
    (by simp [retrieve_outdated_dependencies, retrieveChildren, classifyDeps,
      cratesIoSource, joinCratesIo, joinAlt, filterOutdated, ext2, parseV6,
      dep6, node6, res6])

/-- Counterexample to C2 as stated: one declared crates.io dependency whose
lookup errs.  In `src/api.rs` a lookup error is an `unwrap` panic, so the
task dies before `inc_loader`: the run completes with zero increments while
the up-front total is 1 — the counter is NOT incremented once per
resolution attempt, and loaded ≠ total after all tasks join. -/
theorem c2_counterexample :
    retrieve_outdated_dependencies extPanic (.mk none [dep6] []) none =
      .ok ([], 0)
    ∧ CargoDependencies.len (.mk none [dep6] []) = 1 := by
  constructor
  · simp [retrieve_outdated_dependencies, retrieveChildren, classifyDeps,
      dep6, cratesIoSource, joinCratesIo, joinAlt, filterOutdated, extPanic]
  · rfl

/-! ## Claim C7: ordering and determinism of the final sequence -/

/-- Reordering the member map (the arbitrary `HashMap` iteration order)
turns a successful child collection into a successful one with the same
increment count and a permuted result list. -/
theorem retrieveChildren_perm {V : Type} (ext : Externals V)
    (m1 m2 : List (String × CargoDependencies)) (hp : m1.Perm m2) :
    ∀ res n, retrieveChildren ext m1 = .ok (res, n) →
      ∃ res2, retrieveChildren ext m2 = .ok (res2, n) ∧ res.Perm res2 := by
  induction hp with
  | nil =>
    intro res n h
    exact ⟨res, h, List.Perm.refl res⟩
  | cons x p ih =>
    intro res n h
    obtain ⟨mx, cx⟩ := x
    rw [retrieveChildren] at h
    split at h
    · cases h
    · rename_i d1 i1 h1
      split at h
      · cases h
      · rename_i d2 i2 h2
        cases h
        obtain ⟨d2b, h2b, hperm⟩ := ih d2 i2 h2
        refine ⟨d1 ++ d2b, ?_, hperm.append_left d1⟩
        rw [retrieveChildren, h1, h2b]
  | swap x y l =>
    intro res n h
    obtain ⟨mx, cx⟩ := x
    obtain ⟨my, cy⟩ := y
    rw [retrieveChildren] at h
    split at h
    · cases h
    · rename_i dy iy hy
      split at h
      · cases h
      · rename_i dxl ixl hxl
        rw [retrieveChildren] at hxl
        split at hxl
        · cases hxl
        · rename_i dx ix hx
          split at hxl
          · cases hxl
          · rename_i dl il hl
            cases hxl
            cases h
            refine ⟨dx ++ (dy ++ dl), ?_,
              List.perm_append_comm_assoc dy dx dl⟩
            have hnum : iy + (ix + il) = ix + (iy + il) := by omega
            rw [hnum, retrieveChildren, hx, retrieveChildren, hy, hl]
  | trans p q ih1 ih2 =>
    intro res n h
    obtain ⟨res2, h2, hp2⟩ := ih1 res n h
    obtain ⟨res3, h3, hp3⟩ := ih2 res2 n h2
    exact ⟨res3, h3, hp2.trans hp3⟩

/-- C7 (amended): the final sequence of a successful run is sorted by the
spec-modelled (kind, name) order with Normal < Dev < Build < Workspace, and
reordering the workspace-member map yields a successful run with the same
increment count whose final sequence is a PERMUTATION of the original —
identical when no two items tie on (kind, name), but the relative order of
tied items follows the member iteration order, since the stable sort keeps
arrival order for ties. -/
theorem c7_sorted_and_perm_invariant (V : Type) (ext : Externals V)
    (p pn : Option String) (deps : List CargoDependency)
    (m1 m2 : List (String × CargoDependencies))
    (res : List Dependency) (n : Nat) (hp : m1.Perm m2)
    (h : retrieve_outdated_dependencies ext (.mk pn deps m1) p =
      .ok (res, n)) :
    List.Sorted depLE res ∧
      ∃ res2, retrieve_outdated_dependencies ext (.mk pn deps m2) p =
        .ok (res2, n) ∧ res.Perm res2 ∧ List.Sorted depLE res2 := by
  rw [retrieve_outdated_dependencies] at h
  split at h
  · cases h
  · rename_i own hfilter
    split at h
    · cases h
    · rename_i childDeps childInc hchildren
      cases h
      obtain ⟨cd2, hch2, hperm⟩ :=
        retrieveChildren_perm ext m1 m2 hp childDeps childInc hchildren
      refine ⟨List.sorted_insertionSort depLE _,
        List.insertionSort depLE (own ++ cd2), ?_, ?_,
        List.sorted_insertionSort depLE _⟩
      · rw [retrieve_outdated_dependencies]
        rw [hfilter, hch2]
      · exact ((List.perm_insertionSort depLE _).trans
          (hperm.append_left own)).trans
          (List.perm_insertionSort depLE _).symm

/-- Workspace member "a": one crates.io dependency. -/
def childA : CargoDependencies := .mk (some "a") [dep6] []

/-- Workspace member "b": the same declaration under another member. -/
def childB : CargoDependencies := .mk (some "b") [dep6] []

/-- The outdated item reported for member "a". -/
def resA : Dependency := ⟨"foo", "1", "2", .Normal, some "a"⟩

/-- The outdated item reported for member "b". -/
def resB : Dependency := ⟨"foo", "1", "2", .Normal, some "b"⟩

/-- Witness for C7 (amended): a concrete two-member run is sorted, and the
member-swapped run returns a permutation with the same count. -/
theorem c7_sorted_and_perm_invariant_witness :
    List.Sorted depLE [resA, resB] ∧
      ∃ res2, retrieve_outdated_dependencies ext6
        (.mk none [] [("b", childB), ("a", childA)]) none =
          .ok (res2, 2) ∧ ([resA, resB] : List Dependency).Perm res2 ∧
        List.Sorted depLE res2 :=
  c7_sorted_and_perm_invariant Nat ext6 none none []
    [("a", childA), ("b", childB)] [("b", childB), ("a", childA)]
    [resA, resB] 2 (List.Perm.swap ("b", childB) ("a", childA) [])
    (by simp [retrieve_outdated_dependencies, retrieveChildren, classifyDeps,
      cratesIoSource, joinCratesIo, joinAlt, filterOutdated, ext6, parseV6,
      dep6, childA, childB, resA, resB, List.orderedInsert, depLE,
      DependencyKind.idx])

/-- Counterexample to C7 as stated: the same workspace (two members each
contributing one outdated item that ties on (kind, name)) run with the two
possible member iteration orders produces DIFFERENT final sequences — the
stable sort keeps the arrival order of the tied items, which follows the
arbitrary `HashMap` iteration order. -/
theorem c7_counterexample :
    ([("a", childA), ("b", childB)] :
        List (String × CargoDependencies)).Perm
      [("b", childB), ("a", childA)]
    ∧ retrieve_outdated_dependencies ext6
        (.mk none [] [("a", childA), ("b", childB)]) none ≠
      retrieve_outdated_dependencies ext6
        (.mk none [] [("b", childB), ("a", childA)]) none := by
  constructor
  · exact List.Perm.swap ("b", childB) ("a", childA) []
  · have h1 : retrieve_outdated_dependencies ext6
        (.mk none [] [("a", childA), ("b", childB)]) none =
        .ok ([resA, resB], 2) := by
      simp [retrieve_outdated_dependencies, retrieveChildren, classifyDeps,
        cratesIoSource, joinCratesIo, joinAlt, filterOutdated, ext6, parseV6,
        dep6, childA, childB, resA, resB, List.orderedInsert, depLE,
        DependencyKind.idx]
    have h2 : retrieve_outdated_dependencies ext6
        (.mk none [] [("b", childB), ("a", childA)]) none =
        .ok ([resB, resA], 2) := by
      simp [retrieve_outdated_dependencies, retrieveChildren, classifyDeps,
        cratesIoSource, joinCratesIo, joinAlt, filterOutdated, ext6, parseV6,
        dep6, childA, childB, resA, resB, List.orderedInsert, depLE,
        DependencyKind.idx]
    rw [h1, h2]
    decide

end CargoInteractiveUpdate
